import Mathlib

/-!
Shallow embedding of `src/log.c` (the log.c logging library, MIT, rxi 2020,
C17-hardened variant).

The C library keeps one process-wide state `L` (lock hook, global level,
quiet flag, fixed array of 32 callback slots).  `log_log` acquires the lock
hook, optionally renders to the console, iterates the callback registry
stopping at the first NULL `fn`, and releases the hook.  We model function
pointers by identities (`LogFnPtr`), `void *` user data by `Nat`, the C
`int` level by `Int`, and a `log_log` call by the trace of hook / renderer /
sink invocations it performs, together with the final event record and the
number of `time(NULL)` reads it made.
-/

namespace LogC

/-- The capacity constant, `MAX_CALLBACKS = 32` in log.c line 27. -/
def MAX_CALLBACKS : Nat := 32

/-- Identity of a `log_LogFn` function pointer: one of the two built-in
renderers or a caller-supplied function. -/
inductive LogFnPtr
  | fileCb
  | stdoutCb
  | user (n : Nat)
deriving DecidableEq, Repr

/-- One slot of `L.callbacks`: `typedef struct { log_LogFn fn; void *udata;
int level; } Callback;` — `fn = none` models a NULL function pointer. -/
structure Callback where
  fn : Option LogFnPtr
  udata : Nat
  level : Int
deriving DecidableEq, Repr

/-- The global state struct `L` (log.c lines 41-47): lock user data, lock
hook pointer (`none` = NULL), global minimum level, quiet flag, and the
fixed-size callback array (kept as a list of length `MAX_CALLBACKS`). -/
structure LogState where
  udata : Nat
  lock : Option Nat
  level : Int
  quiet : Bool
  callbacks : List Callback
deriving DecidableEq, Repr

/-- A zeroed `Callback` slot, as produced by static initialization of `L`. -/
def emptyCb : Callback := ⟨none, 0, 0⟩

/-- State `L` at program start: static storage is zero-initialized, so no lock,
level `0` (`LOG_TRACE`), `quiet = false`, and all 32 slots free. -/
def initState : LogState :=
  ⟨0, none, 0, false, List.replicate MAX_CALLBACKS emptyCb⟩

/-- The name table `static const char *level_strings[]` (log.c lines 53-55). -/
def level_strings : List String :=
  ["TRACE", "DEBUG", "INFO", "WARN", "ERROR", "FATAL"]

/-- A C array read `tbl[i]` with an `int` index and no bounds check:
defined (`some`) exactly when the access is in bounds; `none` models an
out-of-bounds read (undefined behavior in C). -/
def tableIndex (tbl : List String) (i : Int) : Option String :=
  if h : 0 ≤ i ∧ i.toNat < tbl.length then some (tbl.get ⟨i.toNat, h.2⟩)
  else none

/-- Function `log_level_string` (log.c lines 141-147): bounds-checked lookup that
falls back to the `"UNKNOWN"` sentinel. -/
def log_level_string (level : Int) : String :=
  if level < 0 ∨ (level_strings.length : Int) ≤ level then "UNKNOWN"
  else (tableIndex level_strings level).getD "UNKNOWN"

/-- The level-name lookup performed by `stdout_callback` (log.c line 84 /
line 89): `level_strings[ev->level]`, with no bounds check. -/
def stdout_callback_levelName (level : Int) : Option String :=
  tableIndex level_strings level

/-- The level-name lookup performed by `file_callback` (log.c line 113):
`level_strings[ev->level]`, with no bounds check. -/
def file_callback_levelName (level : Int) : Option String :=
  tableIndex level_strings level

/-- The inner loop of `log_add_callback` (log.c lines 188-193): scan for
the first slot whose `fn` is NULL and store the new triple there; `none`
when every slot is occupied (the function then returns `-1`). -/
def addCallbackAux : List Callback → Callback → Option (List Callback)
  | [], _ => none
  | c :: cs, newcb =>
    if c.fn = none then some (newcb :: cs)
    else (addCallbackAux cs newcb).map (c :: ·)

/-- Function `log_add_callback` (log.c lines 186-195): returns the updated state and
the C return value (`0` success, `-1` registry full). -/
def log_add_callback (st : LogState) (fn : Option LogFnPtr) (udata : Nat)
    (level : Int) : LogState × Int :=
  match addCallbackAux st.callbacks ⟨fn, udata, level⟩ with
  | some cbs => ({ st with callbacks := cbs }, 0)
  | none => (st, -1)

/-- Function `log_add_fp` (log.c lines 204-206): registers the built-in
`file_callback` with the stream handle as user data. -/
def log_add_fp (st : LogState) (fp : Nat) (level : Int) : LogState × Int :=
  log_add_callback st (some LogFnPtr.fileCb) fp level

/-- Setter `log_set_lock` (log.c lines 155-158). -/
def log_set_lock (st : LogState) (fn : Option Nat) (udata : Nat) : LogState :=
  { st with lock := fn, udata := udata }

/-- Setter `log_set_level` (log.c lines 165-167). -/
def log_set_level (st : LogState) (level : Int) : LogState :=
  { st with level := level }

/-- Setter `log_set_quiet` (log.c lines 174-176). -/
def log_set_quiet (st : LogState) (enable : Bool) : LogState :=
  { st with quiet := enable }

/-- The destination handle (`void *udata`) bound into an event before a
renderer / sink invocation: NULL (initial zeroed event), the `stderr`
stream of the console path, or the user data of a registered sink. -/
inductive Dest
  | nullp
  | stderrp
  | userp (u : Nat)
deriving DecidableEq, Repr

/-- The `log_Event` struct (log.h lines 24-32).  The variadic argument list
`ap` is carried opaquely with the format string; `time = none` models a
NULL `struct tm *`; the timestamp itself is the `Int` returned by the
clock. -/
structure log_Event where
  fmt : String
  file : String
  line : Int
  level : Int
  time : Option Int
  udata : Dest
deriving DecidableEq, Repr

/-- Function `init_event` (log.c lines 214-221): fill the timestamp only if it is
still NULL — reading the clock at position `reads` and bumping the read
count — and unconditionally rebind the destination handle. -/
def init_event (ev : log_Event) (reads : Nat) (clock : Nat → Int)
    (udata : Dest) : log_Event × Nat :=
  match ev.time with
  | none => ({ ev with time := some (clock reads), udata := udata }, reads + 1)
  | some _ => ({ ev with udata := udata }, reads)

/-- One observable step of a `log_log` call: a lock-hook invocation
(`acquire = true` / `false`), the console renderer running on an event, or
the sink in registry slot `i` (with function pointer `f`) running on an
event. -/
inductive TraceEntry
  | lockAcquire
  | lockRelease
  | consoleInvoke (ev : log_Event)
  | sinkInvoke (i : Nat) (f : LogFnPtr) (ev : log_Event)
deriving DecidableEq, Repr

/-- The registry loop of `log_log` (log.c lines 250-258): iterate from slot
`i0` while the `fn` of the slot is non-NULL; invoke the callback when
`level >= cb->level`, re-initializing the event with the user data of that sink
first.  Returns the invocation trace, final event, and final clock-read
count. -/
def dispatchSinks (cbs : List Callback) (i0 : Nat) (ev : log_Event)
    (reads : Nat) (clock : Nat → Int) (level : Int) :
    List TraceEntry × log_Event × Nat :=
  match cbs with
  | [] => ([], ev, reads)
  | cb :: rest =>
    match cb.fn with
    | none => ([], ev, reads)
    | some f =>
      if cb.level ≤ level then
        let p := init_event ev reads clock (Dest.userp cb.udata)
        let q := dispatchSinks rest (i0 + 1) p.1 p.2 clock level
        (TraceEntry.sinkInvoke i0 f p.1 :: q.1, q.2)
      else
        dispatchSinks rest (i0 + 1) ev reads clock level

/-- The statements `log_Event ev = {0}; ev.fmt = fmt; ev.file = file;
ev.line = line; ev.level = level;` (log.c lines 234-238): the
zero-initialized event with the parameters of the call filled in — `time` and `udata` still NULL. -/
def zeroEvent (level : Int) (file : String) (line : Int) (fmt : String) :
    log_Event :=
  { fmt := fmt, file := file, line := line, level := level,
    time := none, udata := Dest.nullp }

/-- Function `lock()` (log.c lines 123-125): invokes the hook with `true` iff one is
installed. -/
def lockTrace (st : LogState) : List TraceEntry :=
  if st.lock.isSome then [TraceEntry.lockAcquire] else []

/-- Function `unlock()` (log.c lines 131-133): invokes the hook with `false` iff one
is installed. -/
def unlockTrace (st : LogState) : List TraceEntry :=
  if st.lock.isSome then [TraceEntry.lockRelease] else []

/-- The console branch of `log_log` (log.c lines 242-247): when
`!L.quiet && level >= L.level`, initialize the event with destination
`stderr` and invoke `stdout_callback`.  Returns the trace of that branch,
the event afterwards, and the clock-read count afterwards (starting from
the zeroed event, 0 reads). -/
def consolePhase (st : LogState) (ev0 : log_Event) (clock : Nat → Int)
    (level : Int) : List TraceEntry × log_Event × Nat :=
  if st.quiet = false ∧ st.level ≤ level then
    let p := init_event ev0 0 clock Dest.stderrp
    ([TraceEntry.consoleInvoke p.1], p.1, p.2)
  else ([], ev0, 0)

/-- Function `log_log` (log.c lines 232-261): build the zeroed event, call `lock()`,
run the console branch, run the registry loop, call `unlock()`.  Result:
the trace of invocations in order, the event record at return, and how many
times `time(NULL)` was read. -/
def log_log (st : LogState) (level : Int) (file : String) (line : Int)
    (fmt : String) (clock : Nat → Int) : List TraceEntry × log_Event × Nat :=
  let cons := consolePhase st (zeroEvent level file line fmt) clock level
  let sinks := dispatchSinks st.callbacks 0 cons.2.1 cons.2.2 clock level
  (lockTrace st ++ cons.1 ++ sinks.1 ++ unlockTrace st, sinks.2)

/-- The events handed to renderer / sink invocations in a trace, in
invocation order. -/
def invokedEvents : List TraceEntry → List log_Event
  | [] => []
  | TraceEntry.consoleInvoke ev :: tr => ev :: invokedEvents tr
  | TraceEntry.sinkInvoke _ _ ev :: tr => ev :: invokedEvents tr
  | _ :: tr => invokedEvents tr

/-- The registry slots whose sinks were invoked, in invocation order. -/
def sinkIndices : List TraceEntry → List Nat
  | [] => []
  | TraceEntry.sinkInvoke i _ _ :: tr => i :: sinkIndices tr
  | _ :: tr => sinkIndices tr

/-- The registry is filled contiguously from index 0: once a slot with a
NULL `fn` is reached, every later slot has a NULL `fn` too. -/
def contiguous (cbs : List Callback) : Bool :=
  (cbs.dropWhile (fun c => c.fn.isSome)).all (fun c => c.fn.isNone)

/-- A registration call: `log_add_callback` or `log_add_fp`. -/
inductive RegOp
  | addCb (fn : Option LogFnPtr) (ud : Nat) (lv : Int)
  | addFp (fp : Nat) (lv : Int)
deriving DecidableEq, Repr

/-- Apply one registration call to the state (result value discarded). -/
def applyOp (st : LogState) : RegOp → LogState
  | RegOp.addCb fn ud lv => (log_add_callback st fn ud lv).1
  | RegOp.addFp fp lv => (log_add_fp st fp lv).1

/-- Apply a sequence of registration calls in order. -/
def applyOps (st : LogState) (ops : List RegOp) : LogState :=
  ops.foldl applyOp st

/-- Run a sequence of `log_add_callback` calls, collecting the C return
values in order. -/
def registerSeq : LogState → List (Option LogFnPtr × Nat × Int) →
    LogState × List Int
  | st, [] => (st, [])
  | st, (fn, ud, lv) :: rest =>
    let p := log_add_callback st fn ud lv
    let q := registerSeq p.1 rest
    (q.1, p.2 :: q.2)

/-- Packaging of a `log_add_callback` argument triple as the stored slot. -/
def mkCb (r : Option LogFnPtr × Nat × Int) : Callback :=
  ⟨r.1, r.2.1, r.2.2⟩

/-- A registry state with a single registered sink (minimum level 2) in
slot 0, used to witness C1. -/
def wSt : LogState :=
  { udata := 0, lock := none, level := 0, quiet := false,
    callbacks := Callback.mk (some (LogFnPtr.user 5)) 9 2 ::
      List.replicate 31 emptyCb }

/-- Thirty-two concrete registrations used to witness C3. -/
def wRegs : List (Option LogFnPtr × Nat × Int) :=
  List.replicate 32 (some (LogFnPtr.user 1), 0, 0)

/-- The witness state for C4: quiet set, one sink at minimum level 2. -/
def wStQuiet : LogState :=
  { udata := 0, lock := none, level := 0, quiet := true,
    callbacks := Callback.mk (some (LogFnPtr.user 5)) 9 2 ::
      List.replicate 31 emptyCb }

/-- The witness state for C5: global level 3 (WARN), quiet off, one sink at
minimum level 1 (DEBUG). -/
def wStWarn : LogState :=
  { udata := 0, lock := none, level := 3, quiet := false,
    callbacks := Callback.mk (some (LogFnPtr.user 5)) 9 1 ::
      List.replicate 31 emptyCb }

/-- The witness state for C7: a lock hook (id 4) installed, empty
registry. -/
def wStLock : LogState :=
  { udata := 0, lock := some 4, level := 0, quiet := false,
    callbacks := List.replicate 32 emptyCb }

/-! ### Basic trace lemmas -/

lemma sinkIndices_append (l1 l2 : List TraceEntry) :
    sinkIndices (l1 ++ l2) = sinkIndices l1 ++ sinkIndices l2 := by
  induction l1 with
  | nil => rfl
  | cons e tr ih => cases e <;> simp [sinkIndices, ih]

lemma invokedEvents_append (l1 l2 : List TraceEntry) :
    invokedEvents (l1 ++ l2) = invokedEvents l1 ++ invokedEvents l2 := by
  induction l1 with
  | nil => rfl
  | cons e tr ih => cases e <;> simp [invokedEvents, ih]

lemma mem_sinkIndices_of_mem {i : Nat} {f : LogFnPtr} {e : log_Event}
    {tr : List TraceEntry} (h : TraceEntry.sinkInvoke i f e ∈ tr) :
    i ∈ sinkIndices tr := by
  induction tr with
  | nil => simp at h
  | cons t tr ih =>
    rcases List.mem_cons.1 h with h1 | h1
    · subst h1; simp [sinkIndices]
    · have h2 := ih h1
      clear h h1 ih
      cases t <;> simp [sinkIndices, h2]

lemma sinkIndices_lockTrace (st : LogState) :
    sinkIndices (lockTrace st) = [] := by
  unfold lockTrace; split <;> simp [sinkIndices]

lemma sinkIndices_unlockTrace (st : LogState) :
    sinkIndices (unlockTrace st) = [] := by
  unfold unlockTrace; split <;> simp [sinkIndices]

lemma sinkIndices_consolePhase (st : LogState) (ev0 : log_Event)
    (clock : Nat → Int) (level : Int) :
    sinkIndices (consolePhase st ev0 clock level).1 = [] := by
  unfold consolePhase; split <;> simp [sinkIndices]

lemma consoleInvoke_not_mem_lockTrace {st : LogState} {e : log_Event} :
    TraceEntry.consoleInvoke e ∉ lockTrace st := by
  unfold lockTrace; split <;> simp

lemma consoleInvoke_not_mem_unlockTrace {st : LogState} {e : log_Event} :
    TraceEntry.consoleInvoke e ∉ unlockTrace st := by
  unfold unlockTrace; split <;> simp

lemma consoleInvoke_not_mem_dispatchSinks {e : log_Event}
    {cbs : List Callback} {i0 : Nat} {ev : log_Event} {reads : Nat}
    {clock : Nat → Int} {level : Int} :
    TraceEntry.consoleInvoke e ∉ (dispatchSinks cbs i0 ev reads clock level).1 := by
  induction cbs generalizing i0 ev reads with
  | nil => simp [dispatchSinks]
  | cons cb rest ih =>
    unfold dispatchSinks
    cases hfn : cb.fn with
    | none => simp
    | some f =>
      by_cases hlv : cb.level ≤ level
      · simp only [hlv, if_pos]
        intro hmem
        rcases List.mem_cons.1 hmem with h | h
        · exact TraceEntry.noConfusion h
        · exact ih h
      · simp only [hlv, if_neg, not_false_iff]
        exact ih

/-! ### Index bounds and membership in the registry loop -/

lemma dispatchSinks_index_lb {cbs : List Callback} {i0 : Nat}
    {ev : log_Event} {reads : Nat} {clock : Nat → Int} {level : Int}
    {i : Nat} (h : i ∈ sinkIndices (dispatchSinks cbs i0 ev reads clock level).1) :
    i0 ≤ i := by
  induction cbs generalizing i0 ev reads with
  | nil => simp [dispatchSinks, sinkIndices] at h
  | cons cb rest ih =>
    unfold dispatchSinks at h
    cases hfn : cb.fn with
    | none => simp [hfn, sinkIndices] at h
    | some f =>
      simp only [hfn] at h
      by_cases hlv : cb.level ≤ level
      · simp only [hlv, if_pos, sinkIndices] at h
        rcases List.mem_cons.1 h with h | h
        · omega
        · exact Nat.le_of_succ_le (ih h)
      · simp only [hlv, if_neg, not_false_iff] at h
        exact Nat.le_of_succ_le (ih h)

lemma dispatchSinks_mem_iff {pre rest : List Callback} {f : LogFnPtr}
    {ud : Nat} {b : Int} (hpre : ∀ c ∈ pre, c.fn.isSome = true)
    (i0 : Nat) (ev : log_Event) (reads : Nat) (clock : Nat → Int)
    (level : Int) :
    (∃ e, TraceEntry.sinkInvoke (i0 + pre.length) f e ∈
        (dispatchSinks (pre ++ ⟨some f, ud, b⟩ :: rest) i0 ev reads clock level).1)
      ↔ b ≤ level := by
  induction pre generalizing i0 ev reads with
  | nil =>
    simp only [List.nil_append, List.length_nil, Nat.add_zero]
    unfold dispatchSinks
    by_cases hb : b ≤ level
    · simp only [hb, if_pos, iff_true]
      exact ⟨_, List.mem_cons_self _ _⟩
    · simp only [hb, iff_false, if_neg, not_false_iff]
      rintro ⟨e, hmem⟩
      have := dispatchSinks_index_lb (mem_sinkIndices_of_mem hmem)
      omega
  | cons c pre ih =>
    have hc : c.fn.isSome = true := hpre c (List.mem_cons_self _ _)
    have hpre' : ∀ x ∈ pre, x.fn.isSome = true :=
      fun x hx => hpre x (List.mem_cons_of_mem _ hx)
    rcases Option.isSome_iff_exists.1 hc with ⟨g, hg⟩
    simp only [List.cons_append, List.length_cons]
    unfold dispatchSinks
    simp only [hg]
    by_cases hlv : c.level ≤ level
    · simp only [hlv, if_pos]
      constructor
      · rintro ⟨e, hmem⟩
        rcases List.mem_cons.1 hmem with h | h
        · exfalso
          have : i0 + (pre.length + 1) = i0 := by
            exact congrArg (fun t => match t with
              | TraceEntry.sinkInvoke i _ _ => i
              | _ => 0) h
          omega
        · have := (ih hpre' (i0 + 1) _ _).1 ⟨e, by
            have harith : i0 + 1 + pre.length = i0 + (pre.length + 1) := by omega
            rw [harith]; exact h⟩
          exact this
      · intro hb
        rcases (ih hpre' (i0 + 1) _ _).2 hb with ⟨e, hmem⟩
        refine ⟨e, List.mem_cons_of_mem _ ?_⟩
        have harith : i0 + 1 + pre.length = i0 + (pre.length + 1) := by omega
        rw [harith] at hmem
        exact hmem
    · simp only [hlv, if_neg, not_false_iff]
      constructor
      · rintro ⟨e, hmem⟩
        exact (ih hpre' (i0 + 1) ev reads).1 ⟨e, by
          have harith : i0 + 1 + pre.length = i0 + (pre.length + 1) := by omega
          rw [harith]; exact hmem⟩
      · intro hb
        rcases (ih hpre' (i0 + 1) ev reads).2 hb with ⟨e, hmem⟩
        refine ⟨e, ?_⟩
        have harith : i0 + 1 + pre.length = i0 + (pre.length + 1) := by omega
        rw [harith] at hmem
        exact hmem

lemma sinkInvoke_not_mem_of_sinkIndices_nil {i : Nat} {f : LogFnPtr}
    {e : log_Event} {tr : List TraceEntry} (h : sinkIndices tr = []) :
    TraceEntry.sinkInvoke i f e ∉ tr := by
  intro hm
  have := mem_sinkIndices_of_mem hm
  rw [h] at this
  simp at this

/-- Sink invocations of a `log_log` call are exactly those of its registry
loop: the lock hook and console branch contribute none. -/
lemma sinkInvoke_mem_log_log {st : LogState} {level : Int} {file : String}
    {line : Int} {fmt : String} {clock : Nat → Int} {i : Nat} {f : LogFnPtr}
    {e : log_Event} :
    TraceEntry.sinkInvoke i f e ∈ (log_log st level file line fmt clock).1 ↔
    TraceEntry.sinkInvoke i f e ∈
      (dispatchSinks st.callbacks 0
        (consolePhase st (zeroEvent level file line fmt) clock level).2.1
        (consolePhase st (zeroEvent level file line fmt) clock level).2.2
        clock level).1 := by
  simp only [log_log]
  constructor
  · intro h
    rcases List.mem_append.1 h with h | h
    · rcases List.mem_append.1 h with h | h
      · rcases List.mem_append.1 h with h | h
        · exact absurd h (sinkInvoke_not_mem_of_sinkIndices_nil (sinkIndices_lockTrace st))
        · exact absurd h (sinkInvoke_not_mem_of_sinkIndices_nil
            (sinkIndices_consolePhase st _ clock level))
      · exact h
    · exact absurd h (sinkInvoke_not_mem_of_sinkIndices_nil (sinkIndices_unlockTrace st))
  · intro h
    exact List.mem_append.2 (Or.inl (List.mem_append.2 (Or.inr h)))

/-- Console invocations of a `log_log` call are exactly those of its console
branch. -/
lemma consoleInvoke_mem_log_log {st : LogState} {level : Int} {file : String}
    {line : Int} {fmt : String} {clock : Nat → Int} {e : log_Event} :
    TraceEntry.consoleInvoke e ∈ (log_log st level file line fmt clock).1 ↔
    TraceEntry.consoleInvoke e ∈
      (consolePhase st (zeroEvent level file line fmt) clock level).1 := by
  simp only [log_log]
  constructor
  · intro h
    rcases List.mem_append.1 h with h | h
    · rcases List.mem_append.1 h with h | h
      · rcases List.mem_append.1 h with h | h
        · exact absurd h consoleInvoke_not_mem_lockTrace
        · exact h
      · exact absurd h consoleInvoke_not_mem_dispatchSinks
    · exact absurd h consoleInvoke_not_mem_unlockTrace
  · intro h
    exact List.mem_append.2 (Or.inl (List.mem_append.2 (Or.inl (List.mem_append.2 (Or.inr h)))))

/-! ### The registry loop stops at the first unused slot -/

lemma takeWhile_occupied (A : List Callback) (c0 : Callback)
    (B : List Callback) (hA : ∀ c ∈ A, c.fn.isSome = true)
    (hc0 : c0.fn = none) :
    (A ++ c0 :: B).takeWhile (fun c => c.fn.isSome) = A := by
  induction A with
  | nil => simp [List.takeWhile_cons, hc0]
  | cons a A ih =>
    have ha : a.fn.isSome = true := hA a (List.mem_cons_self _ _)
    simp only [List.cons_append, List.takeWhile_cons, ha, if_pos]
    rw [ih (fun c hc => hA c (List.mem_cons_of_mem _ hc))]

lemma dispatchSinks_takeWhile (cbs : List Callback) (i0 : Nat)
    (ev : log_Event) (reads : Nat) (clock : Nat → Int) (level : Int) :
    dispatchSinks cbs i0 ev reads clock level =
      dispatchSinks (cbs.takeWhile (fun c => c.fn.isSome)) i0 ev reads clock level := by
  induction cbs generalizing i0 ev reads with
  | nil => rfl
  | cons cb rest ih =>
    cases hfn : cb.fn with
    | none =>
      have : cb.fn.isSome = false := by simp [hfn]
      simp [dispatchSinks, List.takeWhile_cons, this, hfn]
    | some f =>
      have hs : cb.fn.isSome = true := by simp [hfn]
      simp only [List.takeWhile_cons, hs, if_pos]
      unfold dispatchSinks
      simp only [hfn]
      by_cases hlv : cb.level ≤ level
      · simp only [hlv, if_pos]
        rw [ih]
      · simp only [hlv, if_neg, not_false_iff]
        exact ih _ _ _

/-! ### Contiguity of the registry -/

lemma contiguous_cons_some {c : Callback} {cs : List Callback}
    (hc : c.fn.isSome = true) : contiguous (c :: cs) = contiguous cs := by
  unfold contiguous
  simp [List.dropWhile_cons, hc]

lemma contiguous_cons_none {c : Callback} {cs : List Callback}
    (hc : c.fn = none) :
    (contiguous (c :: cs) = true) ↔ ∀ x ∈ cs, x.fn.isNone = true := by
  unfold contiguous
  simp [List.dropWhile_cons, hc, List.all_eq_true]

lemma contiguous_of_all_none {cs : List Callback}
    (h : ∀ x ∈ cs, x.fn.isNone = true) : contiguous cs = true := by
  unfold contiguous
  rw [List.all_eq_true]
  intro c hc
  exact h c ((List.dropWhile_sublist _).subset hc)

lemma contiguous_addCallbackAux {cbs : List Callback} {newcb : Callback} :
    ∀ {l : List Callback}, contiguous cbs = true →
      addCallbackAux cbs newcb = some l → contiguous l = true := by
  induction cbs with
  | nil => intro l _ hl; simp [addCallbackAux] at hl
  | cons c cs ih =>
    intro l h hl
    unfold addCallbackAux at hl
    by_cases hc : c.fn = none
    · rw [if_pos hc] at hl
      cases hl
      have hall : ∀ x ∈ cs, x.fn.isNone = true := (contiguous_cons_none hc).1 h
      cases hnew : newcb.fn with
      | none => exact (contiguous_cons_none hnew).2 hall
      | some f =>
        rw [contiguous_cons_some (by simp [hnew])]
        exact contiguous_of_all_none hall
    · rw [if_neg hc] at hl
      rw [Option.map_eq_some'] at hl
      rcases hl with ⟨l', hl', rfl⟩
      have hcs : c.fn.isSome = true := by
        cases hcfn : c.fn with
        | none => exact absurd hcfn hc
        | some g => simp
      rw [contiguous_cons_some hcs] at h ⊢
      exact ih h hl'

/-! ### Registration at the first free slot -/

lemma addCallbackAux_first_free {done : List Callback} {c0 : Callback}
    {tail : List Callback} (newcb : Callback)
    (hdone : ∀ c ∈ done, c.fn.isSome = true) (hc0 : c0.fn = none) :
    addCallbackAux (done ++ c0 :: tail) newcb = some (done ++ newcb :: tail) := by
  induction done with
  | nil => simp [addCallbackAux, hc0]
  | cons d done ih =>
    have hd : d.fn ≠ none := by
      have := hdone d (List.mem_cons_self _ _)
      exact Option.isSome_iff_ne_none.1 this
    simp only [List.cons_append, addCallbackAux, hd, if_neg, not_false_iff,
      List.append_eq]
    rw [ih (fun c hc => hdone c (List.mem_cons_of_mem _ hc))]
    rfl

lemma addCallbackAux_full {cbs : List Callback} (newcb : Callback)
    (h : ∀ c ∈ cbs, c.fn.isSome = true) :
    addCallbackAux cbs newcb = none := by
  induction cbs with
  | nil => rfl
  | cons c cs ih =>
    have hc : c.fn ≠ none :=
      Option.isSome_iff_ne_none.1 (h c (List.mem_cons_self _ _))
    simp only [addCallbackAux, hc, if_neg, not_false_iff]
    rw [ih (fun x hx => h x (List.mem_cons_of_mem _ hx))]
    rfl

lemma registerSeq_spec (regs : List (Option LogFnPtr × Nat × Int)) :
    ∀ (done : List Callback) (m : Nat) (st : LogState),
      (∀ c ∈ done, c.fn.isSome = true) → (∀ r ∈ regs, r.1 ≠ none) →
      regs.length ≤ m → st.callbacks = done ++ List.replicate m emptyCb →
      (registerSeq st regs).2 = List.replicate regs.length 0 ∧
      (registerSeq st regs).1 = { st with callbacks :=
        done ++ (regs.map mkCb ++ List.replicate (m - regs.length) emptyCb) } := by
  induction regs with
  | nil =>
    intro done m st hdone hfns hlen hcb
    refine ⟨rfl, ?_⟩
    show st = { st with callbacks :=
      done ++ (List.map mkCb [] ++ List.replicate (m - List.length ([] : List (Option LogFnPtr × Nat × Int))) emptyCb) }
    rw [List.map_nil, List.nil_append, List.length_nil, Nat.sub_zero, ← hcb]
  | cons r rest ih =>
    intro done m st hdone hfns hlen hcb
    obtain ⟨fn, ud, lv⟩ := r
    cases m with
    | zero => simp at hlen
    | succ m' =>
      have hstep : log_add_callback st fn ud lv =
          ({ st with callbacks := done ++ Callback.mk fn ud lv :: List.replicate m' emptyCb }, 0) := by
        unfold log_add_callback
        rw [hcb, List.replicate_succ,
          addCallbackAux_first_free (Callback.mk fn ud lv) hdone rfl]
      have hfn : fn ≠ none := hfns _ (List.mem_cons_self _ _)
      have hdone' : ∀ c ∈ done ++ [Callback.mk fn ud lv], c.fn.isSome = true := by
        intro c hc
        rcases List.mem_append.1 hc with hc | hc
        · exact hdone c hc
        · rcases List.mem_singleton.1 hc with rfl
          exact Option.isSome_iff_ne_none.2 hfn
      have hcb' : ({ st with callbacks :=
          done ++ Callback.mk fn ud lv :: List.replicate m' emptyCb } : LogState).callbacks =
          (done ++ [Callback.mk fn ud lv]) ++ List.replicate m' emptyCb := by
        simp
      have hlen' : rest.length ≤ m' := by
        simp only [List.length_cons] at hlen
        omega
      have hrest := ih (done ++ [Callback.mk fn ud lv]) m' _ hdone'
        (fun x hx => hfns x (List.mem_cons_of_mem _ hx)) hlen' hcb'
      constructor
      · simp only [registerSeq, hstep]
        rw [hrest.1]
        simp [List.replicate_succ]
      · simp only [registerSeq, hstep]
        rw [hrest.2]
        have harith : m' + 1 - (rest.length + 1) = m' - rest.length := by omega
        simp only [List.length_cons, List.map_cons, harith]
        cases st with
        | mk u lk lv' q cbs =>
          simp [mkCb, List.append_assoc]

/-! ### Lazy timestamp capture -/

lemma init_event_some {ev : log_Event} {t : Int} (h : ev.time = some t)
    (reads : Nat) (clock : Nat → Int) (ud : Dest) :
    init_event ev reads clock ud = ({ ev with udata := ud }, reads) := by
  unfold init_event
  rw [h]

lemma init_event_none {ev : log_Event} (h : ev.time = none)
    (reads : Nat) (clock : Nat → Int) (ud : Dest) :
    init_event ev reads clock ud =
      ({ ev with time := some (clock reads), udata := ud }, reads + 1) := by
  unfold init_event
  rw [h]

lemma dispatchSinks_time_some (cbs : List Callback) (clock : Nat → Int)
    (level : Int) (t : Int) :
    ∀ i0 ev reads, ev.time = some t →
      (∀ e ∈ invokedEvents (dispatchSinks cbs i0 ev reads clock level).1,
          e.time = some t) ∧
      (dispatchSinks cbs i0 ev reads clock level).2.1.time = some t ∧
      (dispatchSinks cbs i0 ev reads clock level).2.2 = reads := by
  induction cbs with
  | nil =>
    intro i0 ev reads h
    simp [dispatchSinks, invokedEvents, h]
  | cons cb rest ih =>
    intro i0 ev reads h
    unfold dispatchSinks
    cases hfn : cb.fn with
    | none => simp [invokedEvents, h]
    | some f =>
      by_cases hlv : cb.level ≤ level
      · simp only [hlv, if_pos, init_event_some h]
        have ih' := ih (i0 + 1) { ev with udata := Dest.userp cb.udata } reads h
        refine ⟨?_, ih'.2.1, ih'.2.2⟩
        intro e he
        simp only [invokedEvents] at he
        rcases List.mem_cons.1 he with rfl | he
        · exact h
        · exact ih'.1 e he
      · simp only [hlv, if_neg, not_false_iff]
        exact ih (i0 + 1) ev reads h

lemma dispatchSinks_time_none (cbs : List Callback) (clock : Nat → Int)
    (level : Int) :
    ∀ i0 ev reads, ev.time = none →
      ((dispatchSinks cbs i0 ev reads clock level).1 = [] ∧
       (dispatchSinks cbs i0 ev reads clock level).2.2 = reads) ∨
      ((∀ e ∈ invokedEvents (dispatchSinks cbs i0 ev reads clock level).1,
          e.time = some (clock reads)) ∧
       (dispatchSinks cbs i0 ev reads clock level).2.2 = reads + 1 ∧
       invokedEvents (dispatchSinks cbs i0 ev reads clock level).1 ≠ []) := by
  induction cbs with
  | nil =>
    intro i0 ev reads _
    exact Or.inl ⟨rfl, rfl⟩
  | cons cb rest ih =>
    intro i0 ev reads h
    unfold dispatchSinks
    cases hfn : cb.fn with
    | none => exact Or.inl ⟨rfl, rfl⟩
    | some f =>
      by_cases hlv : cb.level ≤ level
      · simp only [hlv, if_pos, init_event_none h]
        refine Or.inr ?_
        have hfill := dispatchSinks_time_some rest clock level (clock reads)
          (i0 + 1) { ev with time := some (clock reads), udata := Dest.userp cb.udata }
          (reads + 1) rfl
        refine ⟨?_, hfill.2.2, ?_⟩
        · intro e he
          simp only [invokedEvents] at he
          rcases List.mem_cons.1 he with rfl | he
          · rfl
          · exact hfill.1 e he
        · simp [invokedEvents]
      · simp only [hlv, if_neg, not_false_iff]
        exact ih (i0 + 1) ev reads h

/-! ### The console branch and the lock hook -/

lemma consolePhase_on {st : LogState} {level : Int} (ev0 : log_Event)
    (clock : Nat → Int) (h : st.quiet = false ∧ st.level ≤ level) :
    consolePhase st ev0 clock level =
      ([TraceEntry.consoleInvoke (init_event ev0 0 clock Dest.stderrp).1],
       init_event ev0 0 clock Dest.stderrp) := by
  unfold consolePhase
  rw [if_pos h]

lemma consolePhase_off {st : LogState} {level : Int} (ev0 : log_Event)
    (clock : Nat → Int) (h : ¬(st.quiet = false ∧ st.level ≤ level)) :
    consolePhase st ev0 clock level = ([], ev0, 0) := by
  unfold consolePhase
  rw [if_neg h]

lemma lockTrace_some {st : LogState} (h : st.lock.isSome = true) :
    lockTrace st = [TraceEntry.lockAcquire] := by
  unfold lockTrace
  rw [if_pos h]

lemma unlockTrace_some {st : LogState} (h : st.lock.isSome = true) :
    unlockTrace st = [TraceEntry.lockRelease] := by
  unfold unlockTrace
  rw [if_pos h]

lemma dispatchSinks_entries (cbs : List Callback) (i0 : Nat) (ev : log_Event)
    (reads : Nat) (clock : Nat → Int) (level : Int) :
    ∀ e ∈ (dispatchSinks cbs i0 ev reads clock level).1,
      ∃ i f e', e = TraceEntry.sinkInvoke i f e' := by
  induction cbs generalizing i0 ev reads with
  | nil => simp [dispatchSinks]
  | cons cb rest ih =>
    unfold dispatchSinks
    cases hfn : cb.fn with
    | none => simp
    | some f =>
      by_cases hlv : cb.level ≤ level
      · simp only [hlv, if_pos]
        intro e he
        rcases List.mem_cons.1 he with rfl | he
        · exact ⟨_, _, _, rfl⟩
        · exact ih _ _ _ e he
      · simp only [hlv, if_neg, not_false_iff]
        exact ih _ _ _

lemma dispatchSinks_index_ub {cbs : List Callback} {i0 : Nat}
    {ev : log_Event} {reads : Nat} {clock : Nat → Int} {level : Int}
    {i : Nat} (h : i ∈ sinkIndices (dispatchSinks cbs i0 ev reads clock level).1) :
    i < i0 + cbs.length := by
  induction cbs generalizing i0 ev reads with
  | nil => simp [dispatchSinks, sinkIndices] at h
  | cons cb rest ih =>
    unfold dispatchSinks at h
    cases hfn : cb.fn with
    | none => simp [hfn, sinkIndices] at h
    | some f =>
      simp only [hfn] at h
      simp only [List.length_cons]
      by_cases hlv : cb.level ≤ level
      · simp only [hlv, if_pos, sinkIndices] at h
        rcases List.mem_cons.1 h with rfl | h
        · omega
        · have := ih h
          omega
      · simp only [hlv, if_neg, not_false_iff] at h
        have := ih h
        omega

lemma dispatchSinks_indices_sorted (cbs : List Callback) (clock : Nat → Int)
    (level : Int) :
    ∀ i0 ev reads, List.Pairwise (· < ·)
      (sinkIndices (dispatchSinks cbs i0 ev reads clock level).1) := by
  induction cbs with
  | nil =>
    intro i0 ev reads
    simp [dispatchSinks, sinkIndices]
  | cons cb rest ih =>
    intro i0 ev reads
    unfold dispatchSinks
    cases hfn : cb.fn with
    | none => simp [sinkIndices]
    | some f =>
      by_cases hlv : cb.level ≤ level
      · simp only [hlv, if_pos, sinkIndices]
        refine List.Pairwise.cons ?_ (ih _ _ _)
        intro j hj
        have := dispatchSinks_index_lb hj
        omega
      · simp only [hlv, if_neg, not_false_iff]
        exact ih _ _ _

lemma invokedEvents_lockTrace (st : LogState) :
    invokedEvents (lockTrace st) = [] := by
  unfold lockTrace; split <;> simp [invokedEvents]

lemma invokedEvents_unlockTrace (st : LogState) :
    invokedEvents (unlockTrace st) = [] := by
  unfold unlockTrace; split <;> simp [invokedEvents]

lemma contiguous_applyOp {st : LogState} (op : RegOp)
    (h : contiguous st.callbacks = true) :
    contiguous (applyOp st op).callbacks = true := by
  have key : ∀ fn ud lv,
      contiguous ((log_add_callback st fn ud lv).1).callbacks = true := by
    intro fn ud lv
    unfold log_add_callback
    cases hadd : addCallbackAux st.callbacks (Callback.mk fn ud lv) with
    | none => simp only [hadd]; exact h
    | some l => simp only [hadd]; exact contiguous_addCallbackAux h hadd
  cases op with
  | addCb fn ud lv => exact key fn ud lv
  | addFp fp lv => exact key _ fp lv

lemma contiguous_applyOps {st : LogState} (ops : List RegOp)
    (h : contiguous st.callbacks = true) :
    contiguous (applyOps st ops).callbacks = true := by
  induction ops generalizing st with
  | nil => exact h
  | cons op ops ih =>
    simp only [applyOps, List.foldl_cons]
    exact ih (contiguous_applyOp op h)

/-- Threshold delivery through a whole `log_log` call: the sink stored at
the first slot after an occupied block `pre` receives the event iff the
level of the event is at-or-above the minimum level of the sink. -/
lemma log_log_sink_iff (st : LogState) (a : Int) (file : String) (line : Int)
    (fmt : String) (clock : Nat → Int) {pre rest : List Callback}
    {f : LogFnPtr} {ud : Nat} {b : Int}
    (hcb : st.callbacks = pre ++ Callback.mk (some f) ud b :: rest)
    (hpre : ∀ c ∈ pre, c.fn.isSome = true) :
    (∃ e, TraceEntry.sinkInvoke pre.length f e ∈
        (log_log st a file line fmt clock).1) ↔ b ≤ a := by
  constructor
  · rintro ⟨e, he⟩
    rw [sinkInvoke_mem_log_log, hcb] at he
    exact (dispatchSinks_mem_iff hpre 0 _ _ clock a).1 ⟨e, by simpa using he⟩
  · intro hb
    rcases (dispatchSinks_mem_iff hpre 0
        (consolePhase st (zeroEvent a file line fmt) clock a).2.1
        (consolePhase st (zeroEvent a file line fmt) clock a).2.2 clock a).2 hb
      with ⟨e, he⟩
    refine ⟨e, sinkInvoke_mem_log_log.2 ?_⟩
    rw [hcb]
    simpa using he

/-! ### Claim theorems -/

/-- C9: `log_level_string` returns the canonical uppercase name for each of
the six defined levels 0..5 and the fixed `"UNKNOWN"` sentinel for every
negative or out-of-range input (e.g. -1 or 99). -/
theorem C9_level_string_names :
    log_level_string 0 = "TRACE" ∧ log_level_string 1 = "DEBUG" ∧
    log_level_string 2 = "INFO" ∧ log_level_string 3 = "WARN" ∧
    log_level_string 4 = "ERROR" ∧ log_level_string 5 = "FATAL" ∧
    log_level_string (-1) = "UNKNOWN" ∧ log_level_string 99 = "UNKNOWN" ∧
    (∀ level : Int, level < 0 ∨ 6 ≤ level →
      log_level_string level = "UNKNOWN") := by
  refine ⟨by decide, by decide, by decide, by decide, by decide, by decide,
    by decide, by decide, ?_⟩
  intro level h
  unfold log_level_string
  rw [if_pos]
  rcases h with h | h
  · exact Or.inl h
  · right
    simpa [level_strings] using h

/-- C9 witness: the general sentinel clause applied at the concrete
out-of-range input -7. -/
theorem C9_level_string_names_witness : log_level_string (-7) = "UNKNOWN" :=
  C9_level_string_names.2.2.2.2.2.2.2.2 (-7) (Or.inl (by decide))

/-- C2 (code evaluated at the failing input): `log_level_string` does
bounds-check and degrades to `"UNKNOWN"`, but the lookup
`level_strings[ev->level]` in the built-in renderers is unchecked: at level 99 or -1 it is an
out-of-bounds read (`none`), not the `"UNKNOWN"` sentinel — and in the
default state `log_log` at level 99 does reach `stdout_callback` with
`ev->level = 99`. -/
theorem C2_renderer_lookup_out_of_bounds :
    log_level_string 99 = "UNKNOWN" ∧ log_level_string (-1) = "UNKNOWN" ∧
    stdout_callback_levelName 99 = none ∧
    stdout_callback_levelName (-1) = none ∧
    file_callback_levelName 99 = none ∧
    file_callback_levelName (-1) = none ∧
    (log_log initState 99 "file.c" 1 "msg" (fun _ => 0)).1 =
      [TraceEntry.consoleInvoke
        { fmt := "msg", file := "file.c", line := 1, level := 99,
          time := some 0, udata := Dest.stderrp }] := by
  refine ⟨by decide, by decide, by decide, by decide, by decide, by decide, ?_⟩
  rfl

/-- C1: an event logged at level `a` is delivered to a sink registered with
minimum level `b` (stored after an occupied block of the registry) iff
`a ≥ b`. -/
theorem C1_sink_threshold (st : LogState) (a : Int) (file : String)
    (line : Int) (fmt : String) (clock : Nat → Int) (pre rest : List Callback)
    (f : LogFnPtr) (ud : Nat) (b : Int)
    (hcb : st.callbacks = pre ++ Callback.mk (some f) ud b :: rest)
    (hpre : ∀ c ∈ pre, c.fn.isSome = true) :
    (∃ e, TraceEntry.sinkInvoke pre.length f e ∈
        (log_log st a file line fmt clock).1) ↔ b ≤ a :=
  log_log_sink_iff st a file line fmt clock hcb hpre

/-- C1 witness: the threshold property at the concrete state `wSt` with
`a = 3`, `b = 2`. -/
theorem C1_sink_threshold_witness :
    (∃ e, TraceEntry.sinkInvoke 0 (LogFnPtr.user 5) e ∈
        (log_log wSt 3 "f.c" 7 "m" (fun _ => 11)).1) ↔ (2 : Int) ≤ 3 := by
  simpa using C1_sink_threshold wSt 3 "f.c" 7 "m" (fun _ => 11) []
    (List.replicate 31 emptyCb) (LogFnPtr.user 5) 9 2 rfl (by simp)

/-- C3: from the empty registry, 32 registrations (with non-NULL callback
pointers) all return 0 and fill slots 0..31 in order; the 33rd returns -1
and leaves the state unchanged. -/
theorem C3_capacity (regs : List (Option LogFnPtr × Nat × Int))
    (hlen : regs.length = 32) (hfns : ∀ r ∈ regs, r.1 ≠ none) :
    (registerSeq initState regs).2 = List.replicate 32 0 ∧
    (registerSeq initState regs).1.callbacks = regs.map mkCb ∧
    (∀ k, k ≤ 32 → (registerSeq initState (regs.take k)).1.callbacks =
        (regs.take k).map mkCb ++ List.replicate (32 - k) emptyCb) ∧
    (∀ fn ud lv, log_add_callback (registerSeq initState regs).1 fn ud lv =
        ((registerSeq initState regs).1, -1)) := by
  have hle : regs.length ≤ 32 := by omega
  have main := registerSeq_spec regs [] 32 initState (by simp) hfns hle rfl
  have hcbs : (registerSeq initState regs).1.callbacks = regs.map mkCb := by
    rw [main.2]
    simp [hlen]
  refine ⟨?_, hcbs, ?_, ?_⟩
  · rw [main.1, hlen]
  · intro k hk
    have hsub : ∀ r ∈ regs.take k, r.1 ≠ none :=
      fun r hr => hfns r (List.take_subset k regs hr)
    have hlk : (regs.take k).length ≤ 32 := by
      rw [List.length_take, hlen]
      omega
    have h2 := registerSeq_spec (regs.take k) [] 32 initState (by simp) hsub
      hlk rfl
    rw [h2.2]
    have hlk2 : (regs.take k).length = k := by
      rw [List.length_take, hlen]
      omega
    simp [hlk2]
  · intro fn ud lv
    have hall : ∀ c ∈ (registerSeq initState regs).1.callbacks,
        c.fn.isSome = true := by
      rw [hcbs]
      intro c hc
      rcases List.mem_map.1 hc with ⟨r, hr, rfl⟩
      exact Option.isSome_iff_ne_none.2 (hfns r hr)
    unfold log_add_callback
    rw [addCallbackAux_full _ hall]

/-- C3 witness: the capacity property at 32 concrete registrations. -/
theorem C3_capacity_witness :
    wRegs.length = 32 ∧
    (registerSeq initState wRegs).2 = List.replicate 32 0 ∧
    (∀ fn ud lv, log_add_callback (registerSeq initState wRegs).1 fn ud lv =
        ((registerSeq initState wRegs).1, -1)) :=
  ⟨by decide, (C3_capacity wRegs (by decide) (by decide)).1,
   (C3_capacity wRegs (by decide) (by decide)).2.2.2⟩

/-- C4: with the quiet flag set, the console renderer is never invoked,
whatever the level, while a registered sink whose minimum level the event
meets still receives the event (and one it does not meet still does not). -/
theorem C4_quiet_suppresses_console_only (st : LogState) (a : Int)
    (file : String) (line : Int) (fmt : String) (clock : Nat → Int)
    (pre rest : List Callback) (f : LogFnPtr) (ud : Nat) (b : Int)
    (hq : st.quiet = true)
    (hcb : st.callbacks = pre ++ Callback.mk (some f) ud b :: rest)
    (hpre : ∀ c ∈ pre, c.fn.isSome = true) :
    (∀ e, TraceEntry.consoleInvoke e ∉ (log_log st a file line fmt clock).1) ∧
    ((∃ e, TraceEntry.sinkInvoke pre.length f e ∈
        (log_log st a file line fmt clock).1) ↔ b ≤ a) := by
  have hoff : ¬(st.quiet = false ∧ st.level ≤ a) := by
    rw [hq]
    rintro ⟨h, -⟩
    exact Bool.noConfusion h
  constructor
  · intro e he
    rw [consoleInvoke_mem_log_log, consolePhase_off _ clock hoff] at he
    simp at he
  · exact log_log_sink_iff st a file line fmt clock hcb hpre

/-- C4 witness: at `wStQuiet`, logging at level 3 reaches the sink
(min level 2) but never the console. -/
theorem C4_quiet_suppresses_console_only_witness :
    (∀ e, TraceEntry.consoleInvoke e ∉
        (log_log wStQuiet 3 "f.c" 7 "m" (fun _ => 11)).1) ∧
    ((∃ e, TraceEntry.sinkInvoke 0 (LogFnPtr.user 5) e ∈
        (log_log wStQuiet 3 "f.c" 7 "m" (fun _ => 11)).1) ↔ (2 : Int) ≤ 3) := by
  simpa using C4_quiet_suppresses_console_only wStQuiet 3 "f.c" 7 "m"
    (fun _ => 11) [] (List.replicate 31 emptyCb) (LogFnPtr.user 5) 9 2 rfl rfl
    (by simp)

/-- C5: the global level threshold filters only the default console sink.
With quiet off and a sink whose minimum level `b` the event level `a`
meets: below the global threshold the console is silent but the sink still
fires; at-or-above it, both fire. -/
theorem C5_global_level_filters_console_only (st : LogState) (a : Int)
    (file : String) (line : Int) (fmt : String) (clock : Nat → Int)
    (pre rest : List Callback) (f : LogFnPtr) (ud : Nat) (b : Int)
    (hq : st.quiet = false)
    (hcb : st.callbacks = pre ++ Callback.mk (some f) ud b :: rest)
    (hpre : ∀ c ∈ pre, c.fn.isSome = true) (hb : b ≤ a) :
    (a < st.level →
      (∀ e, TraceEntry.consoleInvoke e ∉ (log_log st a file line fmt clock).1) ∧
      (∃ e, TraceEntry.sinkInvoke pre.length f e ∈
        (log_log st a file line fmt clock).1)) ∧
    (st.level ≤ a →
      (∃ e, TraceEntry.consoleInvoke e ∈ (log_log st a file line fmt clock).1) ∧
      (∃ e, TraceEntry.sinkInvoke pre.length f e ∈
        (log_log st a file line fmt clock).1)) := by
  have hsink : ∃ e, TraceEntry.sinkInvoke pre.length f e ∈
      (log_log st a file line fmt clock).1 :=
    (log_log_sink_iff st a file line fmt clock hcb hpre).2 hb
  constructor
  · intro hlt
    refine ⟨?_, hsink⟩
    have hoff : ¬(st.quiet = false ∧ st.level ≤ a) := by
      rintro ⟨-, h⟩
      omega
    intro e he
    rw [consoleInvoke_mem_log_log, consolePhase_off _ clock hoff] at he
    simp at he
  · intro hge
    refine ⟨?_, hsink⟩
    have hon : st.quiet = false ∧ st.level ≤ a := ⟨hq, hge⟩
    refine ⟨(init_event (zeroEvent a file line fmt) 0 clock Dest.stderrp).1, ?_⟩
    rw [consoleInvoke_mem_log_log, consolePhase_on _ clock hon]
    simp

/-- C5 witness: the scenario of the spec at `wStWarn` for an INFO (2)
event: console suppressed, sink delivered (and the ERROR branch holds
vacuously at this level). -/
theorem C5_global_level_filters_console_only_witness :
    ((2 : Int) < 3 →
      (∀ e, TraceEntry.consoleInvoke e ∉
        (log_log wStWarn 2 "f.c" 7 "m" (fun _ => 11)).1) ∧
      (∃ e, TraceEntry.sinkInvoke 0 (LogFnPtr.user 5) e ∈
        (log_log wStWarn 2 "f.c" 7 "m" (fun _ => 11)).1)) ∧
    ((3 : Int) ≤ 2 →
      (∃ e, TraceEntry.consoleInvoke e ∈
        (log_log wStWarn 2 "f.c" 7 "m" (fun _ => 11)).1) ∧
      (∃ e, TraceEntry.sinkInvoke 0 (LogFnPtr.user 5) e ∈
        (log_log wStWarn 2 "f.c" 7 "m" (fun _ => 11)).1)) :=
  C5_global_level_filters_console_only wStWarn 2 "f.c" 7 "m"
    (fun _ => 11) [] (List.replicate 31 emptyCb) (LogFnPtr.user 5) 9 1 rfl rfl
    (by simp) (by decide)

/-- C6: after any sequence of `log_add_callback` / `log_add_fp` calls from
the initial state, the registry is contiguous from index 0; dispatch visits
slots in strictly increasing (registration) order; and the trace of a
`log_log` call only depends on the occupied block of the registry up to the
first unused slot. -/
theorem C6_registry_contiguous_ordered_dispatch :
    (∀ ops : List RegOp, contiguous (applyOps initState ops).callbacks = true) ∧
    (∀ (st : LogState) (a : Int) (file : String) (line : Int) (fmt : String)
        (clock : Nat → Int),
      (log_log st a file line fmt clock).1 =
        (log_log { st with callbacks :=
            st.callbacks.takeWhile (fun c => c.fn.isSome) }
          a file line fmt clock).1 ∧
      List.Pairwise (· < ·)
        (sinkIndices (log_log st a file line fmt clock).1)) := by
  constructor
  · intro ops
    exact contiguous_applyOps ops (by decide)
  · intro st a file line fmt clock
    constructor
    · simp only [log_log]
      rw [← dispatchSinks_takeWhile]
      rfl
    · have heq : sinkIndices (log_log st a file line fmt clock).1 =
          sinkIndices (dispatchSinks st.callbacks 0
            (consolePhase st (zeroEvent a file line fmt) clock a).2.1
            (consolePhase st (zeroEvent a file line fmt) clock a).2.2
            clock a).1 := by
        simp only [log_log, sinkIndices_append, sinkIndices_lockTrace,
          sinkIndices_unlockTrace, sinkIndices_consolePhase, List.append_nil,
          List.nil_append]
      rw [heq]
      exact dispatchSinks_indices_sorted st.callbacks clock a 0 _ _

/-- C7: with a lock hook installed, the trace of every `log_log` call is
exactly one acquire, then the renderer / sink invocations, then exactly one
release; acquire and release counts are balanced (both 1). -/
theorem C7_lock_brackets_dispatch (st : LogState) (a : Int) (file : String)
    (line : Int) (fmt : String) (clock : Nat → Int) (l : Nat)
    (hl : st.lock = some l) :
    ∃ body, (log_log st a file line fmt clock).1 =
        TraceEntry.lockAcquire :: (body ++ [TraceEntry.lockRelease]) ∧
      TraceEntry.lockAcquire ∉ body ∧ TraceEntry.lockRelease ∉ body ∧
      ((log_log st a file line fmt clock).1).count TraceEntry.lockAcquire = 1 ∧
      ((log_log st a file line fmt clock).1).count TraceEntry.lockRelease = 1 := by
  have hsome : st.lock.isSome = true := by rw [hl]; rfl
  have hconsA : TraceEntry.lockAcquire ∉
      (consolePhase st (zeroEvent a file line fmt) clock a).1 := by
    unfold consolePhase; split <;> simp
  have hconsR : TraceEntry.lockRelease ∉
      (consolePhase st (zeroEvent a file line fmt) clock a).1 := by
    unfold consolePhase; split <;> simp
  have hsinksA : TraceEntry.lockAcquire ∉
      (dispatchSinks st.callbacks 0
        (consolePhase st (zeroEvent a file line fmt) clock a).2.1
        (consolePhase st (zeroEvent a file line fmt) clock a).2.2
        clock a).1 := by
    intro h
    rcases dispatchSinks_entries _ _ _ _ _ _ _ h with ⟨i, f, e', heq⟩
    exact TraceEntry.noConfusion heq
  have hsinksR : TraceEntry.lockRelease ∉
      (dispatchSinks st.callbacks 0
        (consolePhase st (zeroEvent a file line fmt) clock a).2.1
        (consolePhase st (zeroEvent a file line fmt) clock a).2.2
        clock a).1 := by
    intro h
    rcases dispatchSinks_entries _ _ _ _ _ _ _ h with ⟨i, f, e', heq⟩
    exact TraceEntry.noConfusion heq
  refine ⟨(consolePhase st (zeroEvent a file line fmt) clock a).1 ++
      (dispatchSinks st.callbacks 0
        (consolePhase st (zeroEvent a file line fmt) clock a).2.1
        (consolePhase st (zeroEvent a file line fmt) clock a).2.2
        clock a).1, ?_, ?_, ?_, ?_, ?_⟩
  · simp only [log_log, lockTrace_some hsome, unlockTrace_some hsome]
    simp [List.append_assoc]
  · intro hmem
    rcases List.mem_append.1 hmem with h | h
    · exact hconsA h
    · exact hsinksA h
  · intro hmem
    rcases List.mem_append.1 hmem with h | h
    · exact hconsR h
    · exact hsinksR h
  · simp only [log_log, lockTrace_some hsome, unlockTrace_some hsome,
      List.count_append]
    rw [List.count_eq_zero.2 hconsA, List.count_eq_zero.2 hsinksA]
    decide
  · simp only [log_log, lockTrace_some hsome, unlockTrace_some hsome,
      List.count_append]
    rw [List.count_eq_zero.2 hconsR, List.count_eq_zero.2 hsinksR]
    decide

/-- C7 witness: the bracketing property at the concrete locked state. -/
theorem C7_lock_brackets_dispatch_witness :
    ∃ body, (log_log wStLock 2 "f.c" 7 "m" (fun _ => 11)).1 =
        TraceEntry.lockAcquire :: (body ++ [TraceEntry.lockRelease]) ∧
      TraceEntry.lockAcquire ∉ body ∧ TraceEntry.lockRelease ∉ body ∧
      ((log_log wStLock 2 "f.c" 7 "m" (fun _ => 11)).1).count
        TraceEntry.lockAcquire = 1 ∧
      ((log_log wStLock 2 "f.c" 7 "m" (fun _ => 11)).1).count
        TraceEntry.lockRelease = 1 :=
  C7_lock_brackets_dispatch wStLock 2 "f.c" 7 "m" (fun _ => 11) 4 rfl

/-- C8: within one `log_log` call the clock is read at most once; every
renderer / sink invocation observes the same timestamp (the first clock
read); and if nothing is invoked, the clock is never read. -/
theorem C8_lazy_timestamp (st : LogState) (a : Int) (file : String)
    (line : Int) (fmt : String) (clock : Nat → Int) :
    (log_log st a file line fmt clock).2.2 ≤ 1 ∧
    (∀ e ∈ invokedEvents (log_log st a file line fmt clock).1,
        e.time = some (clock 0)) ∧
    (invokedEvents (log_log st a file line fmt clock).1 = [] →
        (log_log st a file line fmt clock).2.2 = 0) ∧
    (invokedEvents (log_log st a file line fmt clock).1 ≠ [] →
        (log_log st a file line fmt clock).2.2 = 1) := by
  by_cases hcon : st.quiet = false ∧ st.level ≤ a
  · have hp : init_event (zeroEvent a file line fmt) 0 clock Dest.stderrp =
        ({ zeroEvent a file line fmt with
            time := some (clock 0)
            udata := Dest.stderrp }, 1) := init_event_none rfl 0 clock _
    have hcp := @consolePhase_on st a (zeroEvent a file line fmt)
      clock hcon
    have hfill := dispatchSinks_time_some st.callbacks clock a (clock 0) 0
      { zeroEvent a file line fmt with
          time := some (clock 0)
          udata := Dest.stderrp } 1 rfl
    simp only [log_log, hcp, hp, invokedEvents_append, invokedEvents_lockTrace,
      invokedEvents_unlockTrace, invokedEvents, List.append_nil,
      List.nil_append]
    refine ⟨by rw [hfill.2.2], ?_, ?_, ?_⟩
    · intro e he
      rcases List.mem_cons.1 he with rfl | he
      · rfl
      · exact hfill.1 e he
    · intro hemp
      exact absurd hemp (List.cons_ne_nil _ _)
    · intro _
      exact hfill.2.2
  · have hcp := @consolePhase_off st a (zeroEvent a file line fmt)
      clock hcon
    simp only [log_log, hcp, invokedEvents_append, invokedEvents_lockTrace,
      invokedEvents_unlockTrace, invokedEvents, List.append_nil,
      List.nil_append]
    rcases dispatchSinks_time_none st.callbacks clock a 0
        (zeroEvent a file line fmt) 0 rfl with ⟨h1, h2⟩ | ⟨h1, h2, h3⟩
    · rw [h1, h2]
      simp [invokedEvents]
    · refine ⟨by omega, h1, ?_, fun _ => by omega⟩
      intro hemp
      exact absurd hemp h3

/-- C10: registering a NULL callback succeeds (returns 0) and stores the
triple at the first free slot, but the stored entry acts as an unused slot:
dispatch never reaches it or anything after it, and the next registration
overwrites it in place. -/
theorem C10_null_callback (st : LogState) (pre rest : List Callback)
    (c0 : Callback) (ud : Nat) (lv : Int) (a : Int) (file : String)
    (line : Int) (fmt : String) (clock : Nat → Int) (f2 : LogFnPtr)
    (ud2 : Nat) (lv2 : Int)
    (hcb : st.callbacks = pre ++ c0 :: rest)
    (hpre : ∀ c ∈ pre, c.fn.isSome = true)
    (hc0 : c0.fn = none) :
    log_add_callback st none ud lv =
      ({ st with callbacks := pre ++ Callback.mk none ud lv :: rest }, 0) ∧
    (∀ i f e, pre.length ≤ i →
      TraceEntry.sinkInvoke i f e ∉
        (log_log { st with callbacks := pre ++ Callback.mk none ud lv :: rest }
          a file line fmt clock).1) ∧
    log_add_callback
        { st with callbacks := pre ++ Callback.mk none ud lv :: rest }
        (some f2) ud2 lv2 =
      ({ st with callbacks := pre ++ Callback.mk (some f2) ud2 lv2 :: rest },
       0) := by
  refine ⟨?_, ?_, ?_⟩
  · unfold log_add_callback
    rw [hcb, addCallbackAux_first_free _ hpre hc0]
  · intro i f e hi hmem
    rw [sinkInvoke_mem_log_log] at hmem
    have hcb' : ({ st with callbacks := pre ++ Callback.mk none ud lv :: rest } : LogState).callbacks = pre ++ Callback.mk none ud lv :: rest := rfl
    rw [hcb', dispatchSinks_takeWhile,
      takeWhile_occupied pre (Callback.mk none ud lv) rest hpre rfl] at hmem
    have := dispatchSinks_index_ub (mem_sinkIndices_of_mem hmem)
    omega
  · unfold log_add_callback
    have hcb' : ({ st with callbacks := pre ++ Callback.mk none ud lv :: rest } : LogState).callbacks = pre ++ Callback.mk none ud lv :: rest := rfl
    rw [hcb', addCallbackAux_first_free _ hpre rfl]

/-- C10 witness: the NULL-callback behavior starting from the empty
registry (`pre = []`): storage at slot 0, no sink invocation at any index,
and overwrite by the next registration. -/
theorem C10_null_callback_witness :
    log_add_callback initState none 7 4 =
      ({ initState with callbacks := Callback.mk none 7 4 :: List.replicate 31 emptyCb }, 0) ∧
    (∀ i f e, 0 ≤ i →
      TraceEntry.sinkInvoke i f e ∉
        (log_log { initState with callbacks := Callback.mk none 7 4 :: List.replicate 31 emptyCb }
          5 "f.c" 7 "m" (fun _ => 11)).1) ∧
    log_add_callback
        { initState with callbacks := Callback.mk none 7 4 :: List.replicate 31 emptyCb }
        (some (LogFnPtr.user 2)) 8 1 =
      ({ initState with callbacks := Callback.mk (some (LogFnPtr.user 2)) 8 1 :: List.replicate 31 emptyCb },
       0) :=
  C10_null_callback initState [] (List.replicate 31 emptyCb) emptyCb 7 4 5
    "f.c" 7 "m" (fun _ => 11) (LogFnPtr.user 2) 8 1 rfl (by simp) rfl

end LogC
